import Mathlib

/-!
Verification of the wormhole renderer's core (file `WH.py`, fragment shader).

The GLSL fragment shader is shallowly embedded over the real numbers:
every GLSL `float` becomes a real number, `atan`, `log`, `sin`, `cos`,
`sqrt` become their Mathlib counterparts, and the fixed-step integration
loop becomes a fuel-indexed recursion (the fuel is the loop bound
`MAX_STEPS`, so the recursion is structural).  The definitions below
mirror the shader text line by line; the theorems settle the spec's
claims about it.
-/

noncomputable section

namespace WH

/-- Shader constant `PI` (the shader uses this decimal literal, not π). -/
def PI : ℝ := 3.1415926535

/-- Shader constant `DT`, the fixed integration step size. -/
def DT : ℝ := 0.05

/-- Shader constant `MAX_STEPS`, the hard iteration cap. -/
def MAX_STEPS : ℕ := 500

/-- Shader constant `ZOOM`. -/
def ZOOM : ℝ := 1.0

/-- Shader constant `BOUNDARY`, the escape radius in the flare coordinate. -/
def BOUNDARY : ℝ := 50.0

/-- Shader constant `FLOW_SPEED`, the cosmetic rotation rate. -/
def FLOW_SPEED : ℝ := 0.03

/-- The wormhole shape parameters, set as uniforms `rho`, `a`, `M_wh`
(the script sets them to `2.0`, `2`, `0.3`). -/
structure Params where
  rho : ℝ
  a : ℝ
  M_wh : ℝ

/-- The concrete parameter values the script configures at startup:
`WORMHOLE_RHO = 2.0`, `WORMHOLE_A = 2`, `WORMHOLE_M = 0.3`. -/
def paramsWH : Params := ⟨2, 2, 0.3⟩

/-- The clamped auxiliary variable `x = max(0., 2. * (abs(l) - a) / (PI * M_wh))`
shared by `LtoR` and `LtoDR`. -/
def xOf (p : Params) (l : ℝ) : ℝ := max 0 (2 * (|l| - p.a) / (PI * p.M_wh))

/-- Shader function `LtoR`: the embedding radius of flare coordinate `l`,
`rho + M_wh * (x * atan(x) - 0.5 * log(1 + x * x))`. -/
def LtoR (p : Params) (l : ℝ) : ℝ :=
  p.rho + p.M_wh * (xOf p l * Real.arctan (xOf p l)
    - 0.5 * Real.log (1 + xOf p l * xOf p l))

/-- GLSL `sign`: `1` on positives, `-1` on negatives, `0` at `0`. -/
def sgn (l : ℝ) : ℝ := if 0 < l then 1 else if l < 0 then -1 else 0

/-- Shader function `LtoDR`: the derivative of the embedding radius,
`2. * atan(x) * sign(l) / PI`. -/
def LtoDR (p : Params) (l : ℝ) : ℝ := 2 * Real.arctan (xOf p l) * sgn l / PI

/-- The mutable per-ray variables of the shader `main`: flare coordinate `l`,
the radius variable `r`, the rate `dl`, accumulated azimuth `phi`, and the
angular-momentum invariant `H`. -/
@[ext]
structure RayState where
  l : ℝ
  r : ℝ
  dl : ℝ
  phi : ℝ
  H : ℝ

/-- One iteration of the shader's integration loop body (without the
break test): `r = LtoR(l); dr = LtoDR(l); l += dl*DT;
phi += H/(r*r)*DT; dl += H*H*dr/(r*r*r)*DT`. -/
def step (p : Params) (s : RayState) : RayState :=
  let r := LtoR p s.l
  let dr := LtoDR p s.l
  { l := s.l + s.dl * DT
    r := r
    dl := s.dl + s.H * s.H * dr / (r * r * r) * DT
    phi := s.phi + s.H / (r * r) * DT
    H := s.H }

/-- The shader's `for` loop with fuel `n` (the shader runs it with
`n = MAX_STEPS`): each iteration performs `step` and then breaks as soon
as `abs(l) > BOUNDARY`. -/
def loop (p : Params) : ℕ → RayState → RayState
  | 0, s => s
  | n + 1, s =>
    let s' := step p s
    if BOUNDARY < |s'.l| then s' else loop p n s'

/-- The number of loop iterations actually executed by `loop` with fuel
`n` (counting the iteration that triggers the break). -/
def stepsTaken (p : Params) : ℕ → RayState → ℕ
  | 0, _ => 0
  | n + 1, s =>
    let s' := step p s
    if BOUNDARY < |s'.l| then 1 else stepsTaken p n s' + 1

/-- A 3-vector of reals, standing for a GLSL `vec3`. -/
@[ext]
structure Vec3 where
  x : ℝ
  y : ℝ
  z : ℝ

/-- GLSL `length` of a `vec3`. -/
def len3 (v : Vec3) : ℝ := Real.sqrt (v.x * v.x + v.y * v.y + v.z * v.z)

/-- GLSL `length` of a `vec2` given by its two components. -/
def len2 (x y : ℝ) : ℝ := Real.sqrt (x * x + y * y)

/-- GLSL `normalize` of a `vec3`. -/
def normalize3 (v : Vec3) : Vec3 := ⟨v.x / len3 v, v.y / len3 v, v.z / len3 v⟩

/-- Shader function `rotationY(angle)` applied to a vector: with the GLSL
column-major constructor `mat3(c,0,s, 0,1,0, -s,0,c)`, the product with
`v` is `(c*v.x - s*v.z, v.y, s*v.x + c*v.z)`. -/
def rotY (angle : ℝ) (v : Vec3) : Vec3 :=
  let s := Real.sin angle
  let c := Real.cos angle
  ⟨c * v.x - s * v.z, v.y, s * v.x + c * v.z⟩

/-- Which cubemap the fragment samples: `u_skybox_a` or `u_skybox_b`. -/
inductive Env
  | A
  | B
deriving DecidableEq

/-- The per-pixel ray direction
`normalize(ZOOM * u_camera_fwd + uv.x * u_camera_right + uv.y * u_camera_up)`. -/
def rayDir (fwd right up : Vec3) (uv : ℝ × ℝ) : Vec3 :=
  normalize3
    ⟨ZOOM * fwd.x + uv.1 * right.x + uv.2 * up.x,
     ZOOM * fwd.y + uv.1 * right.y + uv.2 * up.y,
     ZOOM * fwd.z + uv.1 * right.z + uv.2 * up.z⟩

/-- The initial ray state the shader seeds before the loop:
`l = u_camera_pos.z; r = length(u_camera_pos); dl = ray_dir.z; phi = 0.;
H = r * length(ray_dir.xy)`. -/
def initState (cameraPos dir : Vec3) : RayState :=
  { l := cameraPos.z
    r := len3 cameraPos
    dl := dir.z
    phi := 0
    H := len3 cameraPos * len2 dir.x dir.y }

/-- The ray state after the shader's integration loop. -/
def finalState (p : Params) (cameraPos fwd right up : Vec3) (uv : ℝ × ℝ) :
    RayState :=
  loop p MAX_STEPS (initState cameraPos (rayDir fwd right up uv))

/-- The exit-reconstruction pair `(dx, dy)` the shader computes after the
loop: `dr = LtoDR(l)` is re-evaluated at the final `l`, while `r` is the
loop variable `s.r`:
`dx = dl*dr*cos(phi) - H/r*sin(phi); dy = dl*dr*sin(phi) + H/r*cos(phi)`. -/
def exitXY (p : Params) (s : RayState) : ℝ × ℝ :=
  let dr := LtoDR p s.l
  (s.dl * dr * Real.cos s.phi - s.H / s.r * Real.sin s.phi,
   s.dl * dr * Real.sin s.phi + s.H / s.r * Real.cos s.phi)

/-- The shader's `initial_perp_dir`: the normalized `xy` part of the ray
direction when its length exceeds `1e-5`, else the zero vector. -/
def perpOf (dir : Vec3) : ℝ × ℝ :=
  if 1e-5 < len2 dir.x dir.y then
    (dir.x / len2 dir.x dir.y, dir.y / len2 dir.x dir.y)
  else (0, 0)

/-- The shader's normalized `final_dir`, assembled from `exitXY` and
`initial_perp_dir`: `final_dir.z = dx; final_dir.xy = dy * initial_perp_dir`. -/
def finalDirOf (p : Params) (cameraPos fwd right up : Vec3) (uv : ℝ × ℝ) :
    Vec3 :=
  let s := finalState p cameraPos fwd right up uv
  let dxy := exitXY p s
  let perp := perpOf (rayDir fwd right up uv)
  normalize3 ⟨dxy.2 * perp.1, dxy.2 * perp.2, dxy.1⟩

/-- The whole fragment-shader `main` for one pixel, transcribed line by
line; the output abstracts the texture fetch as the chosen cubemap id
together with the rotated sampling direction. -/
def mainFrag (p : Params) (cameraPos fwd right up : Vec3) (uv : ℝ × ℝ)
    (time : ℝ) : Env × Vec3 :=
  let ray_dir : Vec3 := normalize3
    ⟨ZOOM * fwd.x + uv.1 * right.x + uv.2 * up.x,
     ZOOM * fwd.y + uv.1 * right.y + uv.2 * up.y,
     ZOOM * fwd.z + uv.1 * right.z + uv.2 * up.z⟩
  let l := cameraPos.z
  let r := len3 cameraPos
  let dl := ray_dir.z
  let H := r * len2 ray_dir.x ray_dir.y
  let s := loop p MAX_STEPS ⟨l, r, dl, 0, H⟩
  let dr := LtoDR p s.l
  let dx := s.dl * dr * Real.cos s.phi - s.H / s.r * Real.sin s.phi
  let dy := s.dl * dr * Real.sin s.phi + s.H / s.r * Real.cos s.phi
  let initial_perp : ℝ × ℝ :=
    if 1e-5 < len2 ray_dir.x ray_dir.y then
      (ray_dir.x / len2 ray_dir.x ray_dir.y, ray_dir.y / len2 ray_dir.x ray_dir.y)
    else (0, 0)
  let final_dir := normalize3 ⟨dy * initial_perp.1, dy * initial_perp.2, dx⟩
  if 0 ≤ s.l then (Env.A, rotY (time * FLOW_SPEED) final_dir)
  else (Env.B, rotY (-time * FLOW_SPEED * 0.7) final_dir)

/-! ### Analysis of the metric functions -/

/-- The flare profile `f x = x * atan x - 0.5 * log (1 + x * x)` appearing
in `LtoR`. -/
def fFlare (x : ℝ) : ℝ := x * Real.arctan x - 0.5 * Real.log (1 + x * x)

lemma one_add_mul_self_pos (x : ℝ) : (0:ℝ) < 1 + x * x := by
  nlinarith [mul_self_nonneg x]

lemma hasDerivAt_fFlare (x : ℝ) : HasDerivAt fFlare (Real.arctan x) x := by
  have h1 : HasDerivAt (fun t : ℝ => t * Real.arctan t)
      (1 * Real.arctan x + x * (1 / (1 + x ^ 2))) x :=
    (hasDerivAt_id x).mul (Real.hasDerivAt_arctan x)
  have h2 : HasDerivAt (fun t : ℝ => 1 + t * t) (0 + (1 * x + x * 1)) x :=
    (hasDerivAt_const x (1:ℝ)).add ((hasDerivAt_id x).mul (hasDerivAt_id x))
  have h3 : HasDerivAt (fun t : ℝ => Real.log (1 + t * t))
      ((0 + (1 * x + x * 1)) / (1 + x * x)) x :=
    h2.log (one_add_mul_self_pos x).ne'
  have h4 := h1.sub (h3.const_mul (0.5 : ℝ))
  have hx : (0:ℝ) < 1 + x ^ 2 := by positivity
  have hx' : (1:ℝ) + x * x ≠ 0 := (one_add_mul_self_pos x).ne'
  convert h4 using 1
  field_simp
  ring

lemma fFlare_strictMonoOn : StrictMonoOn fFlare (Set.Ici (0:ℝ)) := by
  apply strictMonoOn_of_deriv_pos (convex_Ici 0)
  · exact fun x _ => (hasDerivAt_fFlare x).continuousAt.continuousWithinAt
  · intro x hx
    rw [interior_Ici] at hx
    rw [(hasDerivAt_fFlare x).deriv]
    rw [← Real.arctan_zero]
    exact Real.arctan_strictMono hx

lemma fFlare_zero : fFlare 0 = 0 := by
  simp [fFlare]

lemma fFlare_pos {x : ℝ} (hx : 0 < x) : 0 < fFlare x := by
  have := fFlare_strictMonoOn (Set.left_mem_Ici) (Set.mem_Ici.2 hx.le) hx
  rwa [fFlare_zero] at this

lemma fFlare_nonneg {x : ℝ} (hx : 0 ≤ x) : 0 ≤ fFlare x := by
  rcases eq_or_lt_of_le hx with h | h
  · rw [← h, fFlare_zero]
  · exact (fFlare_pos h).le

lemma PI_pos : (0:ℝ) < PI := by norm_num [PI]

lemma xOf_nonneg (p : Params) (l : ℝ) : 0 ≤ xOf p l := le_max_left _ _

lemma LtoR_eq_rho_add (p : Params) (l : ℝ) :
    LtoR p l = p.rho + p.M_wh * fFlare (xOf p l) := rfl

/-- Inside the flat collar the clamp takes effect: `x = 0`. -/
lemma xOf_eq_zero {p : Params} (hM : 0 < p.M_wh) {l : ℝ} (hl : |l| ≤ p.a) :
    xOf p l = 0 := by
  have hden : 0 < PI * p.M_wh := mul_pos PI_pos hM
  have hnum : 2 * (|l| - p.a) ≤ 0 := by
    have := sub_nonpos.2 hl
    linarith
  exact max_eq_left (div_nonpos_iff.2 (Or.inr ⟨hnum, hden.le⟩))

/-- Outside the flat collar the clamp is inactive and `x` is positive. -/
lemma xOf_pos {p : Params} (hM : 0 < p.M_wh) {l : ℝ} (hl : p.a < |l|) :
    0 < xOf p l := by
  have hden : 0 < PI * p.M_wh := mul_pos PI_pos hM
  have hnum : 0 < 2 * (|l| - p.a) := by linarith [sub_pos.2 hl]
  exact lt_max_of_lt_right (div_pos hnum hden)

lemma LtoR_collar {p : Params} (hM : 0 < p.M_wh) {l : ℝ} (hl : |l| ≤ p.a) :
    LtoR p l = p.rho := by
  rw [LtoR_eq_rho_add, xOf_eq_zero hM hl, fFlare_zero, mul_zero, add_zero]

lemma LtoDR_collar {p : Params} (hM : 0 < p.M_wh) {l : ℝ} (hl : |l| ≤ p.a) :
    LtoDR p l = 0 := by
  rw [LtoDR, xOf_eq_zero hM hl, Real.arctan_zero]
  ring

lemma LtoDR_zero (p : Params) : LtoDR p 0 = 0 := by
  have : sgn 0 = 0 := by norm_num [sgn]
  rw [LtoDR, this]
  ring

lemma rho_le_LtoR {p : Params} (hM : 0 < p.M_wh) (l : ℝ) :
    p.rho ≤ LtoR p l := by
  rw [LtoR_eq_rho_add]
  nlinarith [fFlare_nonneg (xOf_nonneg p l)]

lemma rho_lt_LtoR {p : Params} (hM : 0 < p.M_wh) {l : ℝ} (hl : p.a < |l|) :
    p.rho < LtoR p l := by
  rw [LtoR_eq_rho_add]
  nlinarith [fFlare_pos (xOf_pos hM hl)]

/-! ### Behaviour of the integration loop -/

lemma step_H (p : Params) (s : RayState) : (step p s).H = s.H := rfl

lemma loop_H (p : Params) : ∀ (n : ℕ) (s : RayState), (loop p n s).H = s.H := by
  intro n
  induction n with
  | zero => intro s; rfl
  | succ n ih =>
    intro s
    rw [loop]
    split
    · rfl
    · rw [ih]
      rfl

/-- When `H = 0` the azimuthal and bending terms vanish, so each step only
translates `l` by `dl * DT`. -/
lemma step_H_zero (p : Params) (s : RayState) (hH : s.H = 0) :
    step p s = { l := s.l + s.dl * DT, r := LtoR p s.l, dl := s.dl,
                 phi := s.phi, H := 0 } := by
  simp [step, hH]

/-- The angle `phi` never changes on a ray with `H = 0`, however many iterations
run and wherever the break fires. -/
lemma loop_phi_H_zero (p : Params) :
    ∀ (n : ℕ) (s : RayState), s.H = 0 → (loop p n s).phi = s.phi := by
  intro n
  induction n with
  | zero => intro s _; rfl
  | succ n ih =>
    intro s hH
    rw [loop]
    have hs := step_H_zero p s hH
    split
    · rw [hs]
    · rw [ih (step p s) (by rw [hs])]
      rw [hs]

/-- A full description of a run with `H = 0` that never reaches the
escape boundary: `l` advances linearly, `dl` and `phi` are unchanged, and
every one of the `n` iterations executes. -/
lemma loop_H_zero (p : Params) :
    ∀ (n : ℕ) (s : RayState), s.H = 0 →
    (∀ k : ℕ, k ≤ n → |s.l + k * (s.dl * DT)| ≤ BOUNDARY) →
    loop p n s = { l := s.l + n * (s.dl * DT),
                   r := if n = 0 then s.r else LtoR p (s.l + (n - 1 : ℕ) * (s.dl * DT)),
                   dl := s.dl, phi := s.phi, H := 0 } ∧
      stepsTaken p n s = n := by
  intro n
  induction n with
  | zero =>
    intro s hH _
    refine ⟨?_, rfl⟩
    rw [loop]
    ext <;> simp [hH]
  | succ n ih =>
    intro s hH hb
    have hs := step_H_zero p s hH
    have hnb : ¬ BOUNDARY < |(step p s).l| := by
      rw [hs]
      push_neg
      have := hb 1 (by omega)
      simpa using this
    have hb' : ∀ k : ℕ, k ≤ n → |(step p s).l + k * ((step p s).dl * DT)| ≤ BOUNDARY := by
      intro k hk
      rw [hs]
      have := hb (k + 1) (by omega)
      have hcast : s.l + (k + 1 : ℕ) * (s.dl * DT)
          = s.l + s.dl * DT + k * (s.dl * DT) := by
        push_cast
        ring
      rw [hcast] at this
      simpa using this
    obtain ⟨hloop, hsteps⟩ := ih (step p s) (by rw [hs]) hb'
    constructor
    · rw [loop]
      simp only [hnb, if_neg, ite_false]
      rw [hloop, hs]
      rcases Nat.eq_zero_or_pos n with h0 | hpos
      · subst h0
        ext <;> push_cast <;> simp
      · have hn1 : n - 1 + 1 = n := Nat.succ_pred_eq_of_pos hpos
        ext
        · push_cast; ring
        · simp only [Nat.succ_ne_zero, if_neg, ite_false]
          rcases Nat.eq_zero_or_pos n with h | h
          · omega
          · simp only [Nat.pos_iff_ne_zero.1 h, if_neg, ite_false]
            have : ((n : ℕ) + 1 - 1 : ℕ) = n := by omega
            rw [this]
            have hc : (s.l + s.dl * DT) + ((n - 1 : ℕ) : ℝ) * (s.dl * DT)
                = s.l + (n : ℝ) * (s.dl * DT) := by
              have : ((n - 1 : ℕ) : ℝ) = (n : ℝ) - 1 := by
                push_cast [Nat.cast_sub h]
                ring
              rw [this]
              ring
            rw [hc]
        · rfl
        · rfl
        · rfl
    · rw [stepsTaken]
      simp only [hnb, if_neg, ite_false]
      rw [hsteps]

/-- One step taken from inside the flat collar: `r` becomes `rho`, `dr`
vanishes, so `dl` is unchanged and `phi` advances by `H / rho² * DT`. -/
lemma step_collar {p : Params} (hM : 0 < p.M_wh) (s : RayState)
    (hl : |s.l| ≤ p.a) :
    step p s = { l := s.l + s.dl * DT, r := p.rho, dl := s.dl,
                 phi := s.phi + s.H / (p.rho * p.rho) * DT, H := s.H } := by
  have h1 := LtoR_collar hM hl
  have h2 := LtoDR_collar hM hl
  simp [step, h1, h2]

/-- A full description of a run that stays in the flat collar at every
evaluation point and never reaches the escape boundary. -/
lemma loop_collar {p : Params} (hM : 0 < p.M_wh) :
    ∀ (n : ℕ) (s : RayState),
    (∀ k : ℕ, k < n → |s.l + k * (s.dl * DT)| ≤ p.a) →
    (∀ k : ℕ, k ≤ n → |s.l + k * (s.dl * DT)| ≤ BOUNDARY) →
    loop p n s = { l := s.l + n * (s.dl * DT),
                   r := if n = 0 then s.r else p.rho,
                   dl := s.dl,
                   phi := s.phi + n * (s.H / (p.rho * p.rho) * DT),
                   H := s.H } := by
  intro n
  induction n with
  | zero =>
    intro s _ _
    rw [loop]
    ext <;> simp
  | succ n ih =>
    intro s hcol hb
    have hl0 : |s.l| ≤ p.a := by simpa using hcol 0 (by omega)
    have hs := step_collar hM s hl0
    have hnb : ¬ BOUNDARY < |(step p s).l| := by
      rw [hs]
      push_neg
      simpa using hb 1 (by omega)
    have hshift : ∀ k : ℕ, (step p s).l + k * ((step p s).dl * DT)
        = s.l + (k + 1 : ℕ) * (s.dl * DT) := by
      intro k
      rw [hs]
      push_cast
      ring
    have hcol' : ∀ k : ℕ, k < n → |(step p s).l + k * ((step p s).dl * DT)| ≤ p.a := by
      intro k hk
      rw [hshift k]
      exact hcol (k + 1) (by omega)
    have hb' : ∀ k : ℕ, k ≤ n → |(step p s).l + k * ((step p s).dl * DT)| ≤ BOUNDARY := by
      intro k hk
      rw [hshift k]
      exact hb (k + 1) (by omega)
    rw [loop]
    simp only [hnb, if_neg, ite_false]
    rw [ih (step p s) hcol' hb', hs]
    ext
    · push_cast; ring
    · simp only [Nat.succ_ne_zero, if_neg, ite_false]
      split <;> rfl
    · rfl
    · push_cast; ring
    · rfl

/-- The loop executes `stepsTaken` iterations of `step`, never more than
its fuel, and a short run is explained by the escape break. -/
lemma loop_eq_iterate (p : Params) :
    ∀ (n : ℕ) (s : RayState),
    stepsTaken p n s ≤ n ∧
    loop p n s = (step p)^[stepsTaken p n s] s ∧
    (stepsTaken p n s = n ∨ BOUNDARY < |(loop p n s).l|) := by
  intro n
  induction n with
  | zero =>
    intro s
    exact ⟨le_refl 0, rfl, Or.inl rfl⟩
  | succ n ih =>
    intro s
    obtain ⟨ih1, ih2, ih3⟩ := ih (step p s)
    rw [loop, stepsTaken]
    split
    · refine ⟨by omega, ?_, Or.inr (by assumption)⟩
      simp [Function.iterate_one]
    · refine ⟨by omega, ?_, ?_⟩
      · rw [ih2, Function.iterate_succ_apply]
      · rcases ih3 with h | h
        · exact Or.inl (by omega)
        · exact Or.inr h

/-- After at least one iteration the loop's `r` variable holds `LtoR` of
some flare coordinate (namely the pre-update `l` of the last executed
iteration). -/
lemma loop_r_eq_LtoR (p : Params) :
    ∀ (n : ℕ) (s : RayState), ∃ lpre : ℝ, (loop p (n + 1) s).r = LtoR p lpre := by
  intro n
  induction n with
  | zero =>
    intro s
    refine ⟨s.l, ?_⟩
    rw [loop]
    split <;> rfl
  | succ n ih =>
    intro s
    rw [loop]
    split
    · exact ⟨s.l, rfl⟩
    · exact ih (step p s)

/-- The shader `mainFrag` factored into the claim-level pipeline: integrate, rebuild
the exit direction, then select the environment by the sign of `l`. -/
lemma mainFrag_select (p : Params) (cameraPos fwd right up : Vec3)
    (uv : ℝ × ℝ) (time : ℝ) :
    mainFrag p cameraPos fwd right up uv time =
      if 0 ≤ (finalState p cameraPos fwd right up uv).l then
        (Env.A, rotY (time * FLOW_SPEED) (finalDirOf p cameraPos fwd right up uv))
      else
        (Env.B, rotY (-time * FLOW_SPEED * 0.7) (finalDirOf p cameraPos fwd right up uv)) := by
  rfl

/-! ### The straight-through scenario of the end-to-end test -/

/-- The zero vector, used for camera basis vectors that a `uv = (0,0)`
ray never consults. -/
def vzero : Vec3 := ⟨0, 0, 0⟩

/-- Camera position of the end-to-end scenario: on the axis at `l = 15`. -/
def c2pos : Vec3 := ⟨0, 0, 15⟩

/-- Camera forward vector of the end-to-end scenario: straight along the
axis. -/
def c2fwd : Vec3 := ⟨0, 0, 1⟩

lemma c2_rayDir : rayDir c2fwd vzero vzero (0, 0) = ⟨0, 0, 1⟩ := by
  unfold rayDir normalize3 len3
  norm_num [c2fwd, vzero, ZOOM]

lemma c2_initState :
    initState c2pos (rayDir c2fwd vzero vzero (0, 0)) =
      { l := 15, r := 15, dl := 1, phi := 0, H := 0 } := by
  rw [c2_rayDir]
  unfold initState len3 len2 c2pos
  have h225 : Real.sqrt (0 * 0 + 0 * 0 + 15 * 15) = 15 := by
    rw [show (0:ℝ) * 0 + 0 * 0 + 15 * 15 = 15 ^ 2 by norm_num]
    exact Real.sqrt_sq (by norm_num)
  ext <;> simp [h225]

lemma c2_run :
    (loop paramsWH MAX_STEPS (initState c2pos (rayDir c2fwd vzero vzero (0, 0)))).l = 40 ∧
    (loop paramsWH MAX_STEPS (initState c2pos (rayDir c2fwd vzero vzero (0, 0)))).phi = 0 ∧
    stepsTaken paramsWH MAX_STEPS (initState c2pos (rayDir c2fwd vzero vzero (0, 0))) =
      MAX_STEPS := by
  rw [c2_initState]
  have hb : ∀ k : ℕ, k ≤ MAX_STEPS →
      |(15:ℝ) + k * ((1:ℝ) * DT)| ≤ BOUNDARY := by
    intro k hk
    have hk' : (k : ℝ) ≤ 500 := by exact_mod_cast hk.trans_eq rfl
    have h0 : (0:ℝ) ≤ 15 + k * ((1:ℝ) * DT) := by
      unfold DT
      positivity
    rw [abs_of_nonneg h0]
    unfold DT BOUNDARY
    nlinarith
  obtain ⟨hloop, hsteps⟩ :=
    loop_H_zero paramsWH MAX_STEPS { l := 15, r := 15, dl := 1, phi := 0, H := 0 } rfl hb
  refine ⟨?_, ?_, hsteps⟩
  · rw [hloop]
    show (15:ℝ) + (MAX_STEPS : ℕ) * ((1:ℝ) * DT) = 40
    unfold MAX_STEPS DT
    norm_num
  · rw [hloop]

/-! ### The exit reconstruction and the spec's claimed version of it -/

/-- The spec's claimed exit-reconstruction pair, with BOTH `dr` and `r`
evaluated at the final flare coordinate `l`; compare with `exitXY`, which
uses the loop's stored `r` variable. -/
def exitXYClaimed (p : Params) (s : RayState) : ℝ × ℝ :=
  let dr := LtoDR p s.l
  let r := LtoR p s.l
  (s.dl * dr * Real.cos s.phi - s.H / r * Real.sin s.phi,
   s.dl * dr * Real.sin s.phi + s.H / r * Real.cos s.phi)

/-- Whenever `H ≠ 0` and the stored radius differs from `LtoR` at the
final `l`, the code's reconstruction and the spec's claimed one disagree
(regardless of the value of `phi`). -/
lemma exitXY_ne_claimed {p : Params} {s : RayState} (hH : s.H ≠ 0)
    (hr0 : s.r ≠ 0) (hR0 : LtoR p s.l ≠ 0) (hne : s.r ≠ LtoR p s.l) :
    exitXY p s ≠ exitXYClaimed p s := by
  intro h
  simp only [exitXY, exitXYClaimed, Prod.mk.injEq] at h
  obtain ⟨h1, h2⟩ := h
  have hd : s.H / s.r ≠ s.H / LtoR p s.l := by
    intro hq
    rw [div_eq_div_iff hr0 hR0] at hq
    exact hne (mul_left_cancel₀ hH hq).symm
  have hsin : Real.sin s.phi = 0 := by
    have : Real.sin s.phi * (s.H / s.r - s.H / LtoR p s.l) = 0 := by linarith
    rcases mul_eq_zero.1 this with h | h
    · exact h
    · exact absurd (sub_eq_zero.1 h) hd
  have hcos : Real.cos s.phi = 0 := by
    have : Real.cos s.phi * (s.H / s.r - s.H / LtoR p s.l) = 0 := by linarith
    rcases mul_eq_zero.1 this with h | h
    · exact h
    · exact absurd (sub_eq_zero.1 h) hd
  have := Real.sin_sq_add_cos_sq s.phi
  rw [hsin, hcos] at this
  norm_num at this

/-! ### A collar-crossing scenario with nonzero angular momentum -/

/-- Camera position of the collar scenario: on the axis at `l = 1`,
inside the throat's flat collar. -/
def c4pos : Vec3 := ⟨0, 0, 1⟩

/-- Camera forward vector of the collar scenario; its normalization has
`z`-component exactly `20 / 499`, so the ray leaves the flat collar
precisely on the 500th integration step. -/
def c4fwd : Vec3 := ⟨Real.sqrt 248601, 0, 20⟩

lemma sqrt248601_sq : Real.sqrt 248601 * Real.sqrt 248601 = 248601 :=
  Real.mul_self_sqrt (by norm_num)

lemma sqrt248601_pos : 0 < Real.sqrt 248601 :=
  Real.sqrt_pos.2 (by norm_num)

lemma c4_rayDir :
    rayDir c4fwd vzero vzero (0, 0) = ⟨Real.sqrt 248601 / 499, 0, 20 / 499⟩ := by
  unfold rayDir normalize3 len3
  have harg : ZOOM * c4fwd.x + (0:ℝ) * vzero.x + (0:ℝ) * vzero.x = Real.sqrt 248601 := by
    norm_num [c4fwd, vzero, ZOOM]
  have hlen : Real.sqrt (Real.sqrt 248601 * Real.sqrt 248601 + 0 * 0 + 20 * 20) = 499 := by
    rw [sqrt248601_sq]
    rw [show (248601:ℝ) + 0 * 0 + 20 * 20 = 499 ^ 2 by norm_num]
    exact Real.sqrt_sq (by norm_num)
  norm_num [c4fwd, vzero, ZOOM] at hlen ⊢
  rw [hlen]
  exact ⟨rfl, rfl⟩

lemma c4_initState :
    initState c4pos (rayDir c4fwd vzero vzero (0, 0)) =
      { l := 1, r := 1, dl := 20 / 499, phi := 0, H := Real.sqrt 248601 / 499 } := by
  rw [c4_rayDir]
  unfold initState len3 len2 c4pos
  have h1 : Real.sqrt ((0:ℝ) * 0 + 0 * 0 + 1 * 1) = 1 := by
    norm_num
  have h2 : Real.sqrt (Real.sqrt 248601 / 499 * (Real.sqrt 248601 / 499) + 0 * 0)
      = Real.sqrt 248601 / 499 := by
    rw [show (0:ℝ) * 0 = 0 by norm_num, add_zero]
    exact Real.sqrt_mul_self (div_pos sqrt248601_pos (by norm_num)).le
  have h3 : Real.sqrt (Real.sqrt 248601 / 499 * (Real.sqrt 248601 / 499))
      = Real.sqrt 248601 / 499 :=
    Real.sqrt_mul_self (div_pos sqrt248601_pos (by norm_num)).le
  ext <;> simp [h1, h2, h3]

/-- The collar scenario's run: the ray stays in the flat collar for all
499 first steps and leaves it on the 500th, so the loop's stored `r` is
`rho = 2` while the final `l = 999/499` lies outside the collar. -/
lemma c4_run :
    (finalState paramsWH c4pos c4fwd vzero vzero (0, 0)).l = 999 / 499 ∧
    (finalState paramsWH c4pos c4fwd vzero vzero (0, 0)).r = 2 ∧
    (finalState paramsWH c4pos c4fwd vzero vzero (0, 0)).H = Real.sqrt 248601 / 499 := by
  unfold finalState
  rw [c4_initState]
  have hM : 0 < paramsWH.M_wh := by norm_num [paramsWH]
  have hDT : (20 / 499 : ℝ) * DT = 1 / 499 := by unfold DT; norm_num
  have hcol : ∀ k : ℕ, k < MAX_STEPS →
      |(1:ℝ) + k * ((20 / 499 : ℝ) * DT)| ≤ paramsWH.a := by
    intro k hk
    have hk' : (k : ℝ) ≤ 499 := by
      have : k ≤ 499 := by
        have : k < 500 := hk
        omega
      exact_mod_cast this
    rw [hDT, abs_of_nonneg (by positivity)]
    have : (k : ℝ) * (1 / 499) ≤ 1 := by nlinarith
    norm_num [paramsWH]
    linarith
  have hb : ∀ k : ℕ, k ≤ MAX_STEPS →
      |(1:ℝ) + k * ((20 / 499 : ℝ) * DT)| ≤ BOUNDARY := by
    intro k hk
    have hk' : (k : ℝ) ≤ 500 := by exact_mod_cast hk.trans_eq rfl
    rw [hDT, abs_of_nonneg (by positivity)]
    have : (k : ℝ) * (1 / 499) ≤ 500 / 499 := by nlinarith
    norm_num [BOUNDARY]
    linarith
  have hrun := loop_collar hM MAX_STEPS
    { l := 1, r := 1, dl := 20 / 499, phi := 0, H := Real.sqrt 248601 / 499 }
    hcol hb
  rw [hrun]
  refine ⟨?_, ?_, rfl⟩
  · show (1:ℝ) + (MAX_STEPS : ℕ) * ((20 / 499 : ℝ) * DT) = 999 / 499
    rw [hDT]
    unfold MAX_STEPS
    norm_num
  · show (if MAX_STEPS = 0 then (1:ℝ) else paramsWH.rho) = 2
    norm_num [MAX_STEPS, paramsWH]

/-- The spec's per-step update, transcribed from its own wording
(`l += dl*DT; phi += (H/r^2)*DT; dl += H^2*dr/r^3*DT` with `r`, `dr`
evaluated at the pre-update `l`), to be compared with the code's
`step`. -/
def stepSpecEuler (p : Params) (s : RayState) : RayState :=
  let r := LtoR p s.l
  let dr := LtoDR p s.l
  { l := s.l + s.dl * DT
    r := r
    dl := s.dl + s.H ^ 2 * dr / r ^ 3 * DT
    phi := s.phi + s.H / r ^ 2 * DT
    H := s.H }

/-! ### The claims -/

/-- Claim C1 (corrected): the shader seeds the initial ray state with
`l0 = camera.position.z`, `dl0 = dir.z`, `phi0 = 0`, but the radius used
for the angular-momentum invariant is the Euclidean norm of the full
camera position, `H0 = length(camera.position) * |dir.xy|` — not
`LtoR(l0) * |dir.xy|` as the spec claims. -/
theorem seed_state_amended (p : Params) (cameraPos fwd right up : Vec3) (uv : ℝ × ℝ) :
    initState cameraPos (rayDir fwd right up uv) =
      { l := cameraPos.z
        r := len3 cameraPos
        dl := (rayDir fwd right up uv).z
        phi := 0
        H := len3 cameraPos * len2 (rayDir fwd right up uv).x (rayDir fwd right up uv).y } ∧
    finalState p cameraPos fwd right up uv =
      loop p MAX_STEPS (initState cameraPos (rayDir fwd right up uv)) :=
  ⟨rfl, rfl⟩

/-- Claim C1's refutation: for a camera at `(0,0,1)` (inside the flat
collar, so `LtoR(l0) = rho = 2`) and a purely transverse ray direction
`(1,0,0)`, the code seeds `H0 = 1` while the spec's formula
`LtoR(l0) * |dir.xy|` would give `2`. -/
theorem seed_H_counterexample :
    (initState c4pos (rayDir ⟨1, 0, 0⟩ vzero vzero (0, 0))).H ≠
      LtoR paramsWH c4pos.z *
        len2 (rayDir ⟨1, 0, 0⟩ vzero vzero (0, 0)).x
          (rayDir ⟨1, 0, 0⟩ vzero vzero (0, 0)).y := by
  have hdir : rayDir ⟨1, 0, 0⟩ vzero vzero (0, 0) = ⟨1, 0, 0⟩ := by
    unfold rayDir normalize3 len3
    norm_num [vzero, ZOOM]
  rw [hdir]
  have hM : 0 < paramsWH.M_wh := by norm_num [paramsWH]
  have hcz : c4pos.z = (1:ℝ) := rfl
  have hcollar : LtoR paramsWH c4pos.z = 2 := by
    rw [hcz]
    rw [LtoR_collar hM (by norm_num [paramsWH])]
    norm_num [paramsWH]
  rw [hcollar]
  unfold initState len3 len2 c4pos
  norm_num

/-- Claim C2's refutation: in the end-to-end scenario (`rho=2, a=2,
M=0.3`, camera at `l=15`, ray straight along the axis), the ray advances
by `dl*DT = 0.05` per step and only reaches `l = 40` after all 500 steps
— it never exceeds `BOUNDARY = 50`, so the loop terminates by exhausting
`MAX_STEPS`, not by the boundary break. -/
theorem straight_ray_no_boundary_exit :
    (loop paramsWH MAX_STEPS (initState c2pos (rayDir c2fwd vzero vzero (0, 0)))).l = 40 ∧
    ¬ BOUNDARY <
        |(loop paramsWH MAX_STEPS (initState c2pos (rayDir c2fwd vzero vzero (0, 0)))).l| ∧
    stepsTaken paramsWH MAX_STEPS (initState c2pos (rayDir c2fwd vzero vzero (0, 0))) =
      MAX_STEPS := by
  obtain ⟨h1, h2, h3⟩ := c2_run
  refine ⟨h1, ?_, h3⟩
  rw [h1]
  norm_num [BOUNDARY]

/-- Claim C2 (corrected): in the end-to-end scenario the integration
keeps `phi` exactly `0` at every step, runs all `MAX_STEPS = 500`
iterations without ever exceeding `BOUNDARY`, ends at `l_final = 40`
(positive), and selects Environment A. -/
theorem straight_ray_scenario_amended :
    (∀ n : ℕ,
      (loop paramsWH n (initState c2pos (rayDir c2fwd vzero vzero (0, 0)))).phi = 0) ∧
    stepsTaken paramsWH MAX_STEPS (initState c2pos (rayDir c2fwd vzero vzero (0, 0))) =
      MAX_STEPS ∧
    (loop paramsWH MAX_STEPS (initState c2pos (rayDir c2fwd vzero vzero (0, 0)))).l = 40 ∧
    (0:ℝ) < 40 ∧
    ∀ time : ℝ, (mainFrag paramsWH c2pos c2fwd vzero vzero (0, 0) time).1 = Env.A := by
  obtain ⟨h1, h2, h3⟩ := c2_run
  refine ⟨?_, h3, h1, by norm_num, ?_⟩
  · intro n
    rw [c2_initState]
    exact loop_phi_H_zero paramsWH n _ rfl
  · intro time
    rw [mainFrag_select]
    have hl : (finalState paramsWH c2pos c2fwd vzero vzero (0, 0)).l = 40 := h1
    rw [hl]
    norm_num

/-- Claim C3 (confirmed): each integration step evaluates `r = LtoR(l)`
and `dr = LtoDR(l)` at the pre-update `l` and then advances `l`, `phi`,
`dl` by a single explicit Euler sub-step, and the loop performs exactly
this update (followed by the boundary break test) on every iteration. -/
theorem step_is_explicit_euler (p : Params) (s : RayState) :
    step p s = stepSpecEuler p s ∧
    ∀ n : ℕ, loop p (n + 1) s =
      if BOUNDARY < |(step p s).l| then step p s else loop p n (step p s) := by
  constructor
  · ext
    · rfl
    · rfl
    · show s.dl + s.H * s.H * LtoDR p s.l / (LtoR p s.l * LtoR p s.l * LtoR p s.l) * DT
        = s.dl + s.H ^ 2 * LtoDR p s.l / LtoR p s.l ^ 3 * DT
      ring
    · show s.phi + s.H / (LtoR p s.l * LtoR p s.l) * DT
        = s.phi + s.H / LtoR p s.l ^ 2 * DT
      ring
    · rfl
  · intro n
    rw [loop]

/-- Claim C4's refutation: in the collar-crossing scenario (camera at
`l = 1`, the ray leaving the flat collar exactly on its 500th step with
`H ≠ 0`), the code's reconstruction divides by the stored `r = rho = 2`
while the spec's formula divides by `LtoR(l_final) > 2`, and the two
`(dx, dy)` pairs differ. -/
theorem exit_r_counterexample :
    exitXY paramsWH (finalState paramsWH c4pos c4fwd vzero vzero (0, 0)) ≠
      exitXYClaimed paramsWH (finalState paramsWH c4pos c4fwd vzero vzero (0, 0)) := by
  obtain ⟨hl, hr, hH⟩ := c4_run
  have hM : 0 < paramsWH.M_wh := by norm_num [paramsWH]
  have hlout : paramsWH.a <
      |(finalState paramsWH c4pos c4fwd vzero vzero (0, 0)).l| := by
    rw [hl, abs_of_pos (by norm_num : (0:ℝ) < 999 / 499)]
    norm_num [paramsWH]
  have hRgt : paramsWH.rho <
      LtoR paramsWH (finalState paramsWH c4pos c4fwd vzero vzero (0, 0)).l :=
    rho_lt_LtoR hM hlout
  apply exitXY_ne_claimed
  · rw [hH]
    exact (div_pos sqrt248601_pos (by norm_num)).ne'
  · rw [hr]
    norm_num
  · have : (0:ℝ) < 2 := by norm_num
    have h2 : (2:ℝ) = paramsWH.rho := by norm_num [paramsWH]
    intro hzero
    rw [hzero] at hRgt
    norm_num [paramsWH] at hRgt
  · rw [hr]
    intro heq
    rw [← heq] at hRgt
    norm_num [paramsWH] at hRgt

/-- Claim C4 (corrected): after the loop the exit direction is
reconstructed from `(dl, dr, phi, H, r)` where `dr = LtoDR(l_final)` is
re-evaluated at the final flare coordinate, but `r` is the loop's stored
variable — `LtoR` at the pre-update `l` of the last executed iteration,
not at `l_final`; the transverse component is `dy` times the normalized
initial transverse direction (zero when below the `1e-5` threshold), and
the result is normalized. -/
theorem exit_reconstruction_amended :
    (∀ (p : Params) (s : RayState),
      exitXY p s =
        (s.dl * LtoDR p s.l * Real.cos s.phi - s.H / s.r * Real.sin s.phi,
         s.dl * LtoDR p s.l * Real.sin s.phi + s.H / s.r * Real.cos s.phi)) ∧
    (∀ (p : Params) (n : ℕ) (s : RayState),
      ∃ lpre : ℝ, (loop p (n + 1) s).r = LtoR p lpre) ∧
    (∀ (p : Params) (cameraPos fwd right up : Vec3) (uv : ℝ × ℝ),
      finalDirOf p cameraPos fwd right up uv =
        normalize3
          ⟨(exitXY p (finalState p cameraPos fwd right up uv)).2 *
              (perpOf (rayDir fwd right up uv)).1,
           (exitXY p (finalState p cameraPos fwd right up uv)).2 *
              (perpOf (rayDir fwd right up uv)).2,
           (exitXY p (finalState p cameraPos fwd right up uv)).1⟩) :=
  ⟨fun _ _ => rfl, fun p n s => loop_r_eq_LtoR p n s, fun _ _ _ _ _ _ => rfl⟩

/-- Claim C5 (confirmed): the environment is chosen solely by the sign of
the final flare coordinate — `l_final ≥ 0` samples Environment A with the
exit direction rotated about the vertical axis by `+time*FLOW_SPEED`,
otherwise Environment B with the rotation `-time*FLOW_SPEED*0.7`. -/
theorem environment_selection (p : Params) (cameraPos fwd right up : Vec3)
    (uv : ℝ × ℝ) (time : ℝ) :
    mainFrag p cameraPos fwd right up uv time =
      if 0 ≤ (finalState p cameraPos fwd right up uv).l then
        (Env.A, rotY (time * FLOW_SPEED) (finalDirOf p cameraPos fwd right up uv))
      else
        (Env.B, rotY (-time * FLOW_SPEED * 0.7) (finalDirOf p cameraPos fwd right up uv)) :=
  mainFrag_select p cameraPos fwd right up uv time

/-- Claim C6 (confirmed): the integration executes at most `MAX_STEPS`
iterations of `step`; when it executes fewer, it is because the flare
coordinate exceeded `BOUNDARY` right after a step. -/
theorem integration_bounded (p : Params) (s : RayState) :
    stepsTaken p MAX_STEPS s ≤ MAX_STEPS ∧
    loop p MAX_STEPS s = (step p)^[stepsTaken p MAX_STEPS s] s ∧
    (stepsTaken p MAX_STEPS s = MAX_STEPS ∨
      BOUNDARY < |(loop p MAX_STEPS s).l|) :=
  loop_eq_iterate p MAX_STEPS s

/-- Claim C7 (confirmed): with positive `rho` and `M_wh`, every radius
the loop divides by satisfies `rho ≤ LtoR(l)`, hence is strictly
positive, and the stored radius the exit reconstruction divides by obeys
the same bound after the full run. -/
theorem divisors_positive (p : Params) (hrho : 0 < p.rho) (hM : 0 < p.M_wh) :
    (∀ l : ℝ, p.rho ≤ LtoR p l ∧ 0 < LtoR p l) ∧
    (∀ s : RayState,
      p.rho ≤ (loop p MAX_STEPS s).r ∧ 0 < (loop p MAX_STEPS s).r) := by
  have hfloor : ∀ l : ℝ, p.rho ≤ LtoR p l ∧ 0 < LtoR p l := by
    intro l
    have h := rho_le_LtoR hM l
    exact ⟨h, lt_of_lt_of_le hrho h⟩
  refine ⟨hfloor, ?_⟩
  intro s
  have h500 : MAX_STEPS = 499 + 1 := rfl
  rw [h500]
  obtain ⟨lpre, hpre⟩ := loop_r_eq_LtoR p 499 s
  rw [hpre]
  exact hfloor lpre

/-- Witness for claim C7 at the script's parameters `(2, 2, 0.3)`. -/
theorem divisors_positive_witness :
    0 < paramsWH.rho ∧ 0 < paramsWH.M_wh ∧
    ((∀ l : ℝ, paramsWH.rho ≤ LtoR paramsWH l ∧ 0 < LtoR paramsWH l) ∧
     (∀ s : RayState,
        paramsWH.rho ≤ (loop paramsWH MAX_STEPS s).r ∧
        0 < (loop paramsWH MAX_STEPS s).r)) :=
  ⟨by norm_num [paramsWH], by norm_num [paramsWH],
   divisors_positive paramsWH (by norm_num [paramsWH]) (by norm_num [paramsWH])⟩

/-- Claim C8 (confirmed): `H` is conserved — a single step never
reassigns it and its value after any number of loop iterations is the
value before the run. -/
theorem H_conserved (p : Params) (s : RayState) :
    (step p s).H = s.H ∧ ∀ n : ℕ, (loop p n s).H = s.H :=
  ⟨step_H p s, fun n => loop_H p n s⟩

/-- Claim C9 (confirmed): for positive `M_wh` the embedding radius never
drops below the throat radius, `LtoR(l) ≥ rho`, with equality exactly on
the flat collar `|l| ≤ a`. -/
theorem radius_floor (p : Params) (hM : 0 < p.M_wh) (l : ℝ) :
    p.rho ≤ LtoR p l ∧ (LtoR p l = p.rho ↔ |l| ≤ p.a) := by
  refine ⟨rho_le_LtoR hM l, ?_, fun h => LtoR_collar hM h⟩
  intro heq
  by_contra hgt
  push_neg at hgt
  exact absurd heq (ne_of_gt (rho_lt_LtoR hM hgt))

/-- Witness for claim C9 at the script's parameters and `l = 0`. -/
theorem radius_floor_witness :
    0 < paramsWH.M_wh ∧
    (paramsWH.rho ≤ LtoR paramsWH 0 ∧
      (LtoR paramsWH 0 = paramsWH.rho ↔ |(0:ℝ)| ≤ paramsWH.a)) :=
  ⟨by norm_num [paramsWH], radius_floor paramsWH (by norm_num [paramsWH]) 0⟩

/-- Claim C10 (confirmed): inside the flat collar `|l| ≤ a` the clamp
makes `LtoR(l) = rho` and `LtoDR(l) = 0` exactly, and `LtoDR(0) = 0`
with no directional bias. -/
theorem flat_collar (p : Params) (hM : 0 < p.M_wh) :
    (∀ l : ℝ, |l| ≤ p.a → LtoR p l = p.rho ∧ LtoDR p l = 0) ∧
    LtoDR p 0 = 0 :=
  ⟨fun _ hl => ⟨LtoR_collar hM hl, LtoDR_collar hM hl⟩, LtoDR_zero p⟩

/-- Witness for claim C10 at the script's parameters and `l = 1`. -/
theorem flat_collar_witness :
    0 < paramsWH.M_wh ∧ |(1:ℝ)| ≤ paramsWH.a ∧
    (LtoR paramsWH 1 = paramsWH.rho ∧ LtoDR paramsWH 1 = 0) ∧
    LtoDR paramsWH 0 = 0 :=
  ⟨by norm_num [paramsWH], by norm_num [paramsWH],
   (flat_collar paramsWH (by norm_num [paramsWH])).1 1 (by norm_num [paramsWH]),
   (flat_collar paramsWH (by norm_num [paramsWH])).2⟩

end WH
